import Mathlib

/-!
A verification development for the grammar/lexer front end of this repository.

Part I embeds `lrlex/src/lib/builder.rs` (the lexer builder and artifact
generator): lexer rules, the escaping used when embedding patterns into the
generated string literal, the `T_*` token-id constant emission guarded by
`RE_TOKEN_ID`, and `LexerBuilder::process_file`'s reconciliation/abort/write
logic.  Machine integers (`StorageT`, defaulting to `u32`) are modelled as
`Nat`: ids are only ever printed, never operated on arithmetically, so no
overflow behaviour is observable.  Rust `HashMap`s are modelled as association
lists whose list order stands for the map's (unordered, run-dependent)
iteration order; `HashSet`s of names are modelled as lists of names, with
properties stated via membership.

Part II embeds the Yacc-grammar text parser (`parse_yacc`) and the grammar
AST.  Its source file is not part of this repository slice (only its tests
under `src/tests/test_yaccparser.rs` are), so it is modelled from the spec;
each such definition carries a `Modelled from the spec:` doc comment.
-/

/-! ## Part I: the lexer builder (`lrlex/src/lib/builder.rs`) -/

/-- A lexer rule, from `lrlex`'s `Rule` as used by `builder.rs`: an optional
numeric token id, an optional symbolic name, and the pattern kept as raw
source text (`re_str`). -/
structure LexRule where
  tok_id : Option Nat
  name : Option String
  re_str : String
deriving DecidableEq

/-- Character-level single-character pattern replacement; `Rust`'s
`str::replace` with a one-character pattern replaces exactly the occurrences
of that character, left to right. -/
def replace_char (c : Char) (rep : List Char) : List Char → List Char
  | [] => []
  | d :: rest => (if d = c then rep else [d]) ++ replace_char c rep rest

/-- The escaping applied to `r.re_str` at builder.rs line 249:
`.replace("\\", "\\\\").replace("\"", "\\\"")` — every backslash is doubled,
then every double quote gains a preceding backslash. -/
def escape_re (s : String) : String :=
  String.mk (replace_char '"' ['\\', '"'] (replace_char '\\' ['\\', '\\'] s.data))

/-- Reading a string back out of a generated double-quoted literal: a
backslash escapes the character after it, any other character stands for
itself.  This is how the Rust compiler reads the literal that
`process_file` emits. -/
def unescape_chars : List Char → List Char
  | [] => []
  | [d] => [d]
  | d :: e :: rest =>
    if d = '\\' then e :: unescape_chars rest
    else d :: unescape_chars (e :: rest)

/-- String-level wrapper of `unescape_chars`. -/
def unescape_lit (s : String) : String :=
  String.mk (unescape_chars s.data)

/-- ASCII upper-casing of one character (Rust `to_ascii_uppercase`). -/
def ascii_upper_char (c : Char) : Char :=
  if 'a' ≤ c ∧ c ≤ 'z' then Char.ofNat (c.toNat - 32) else c

/-- ASCII upper-casing of a string (Rust `String::to_ascii_uppercase`). -/
def ascii_upper (s : String) : String :=
  String.mk (s.data.map ascii_upper_char)

/-- The `RE_TOKEN_ID` regex of builder.rs line 26,
`^[a-zA-Z_][a-zA-Z_0-9]*$`, as a whole-string match predicate: nonempty,
first character a letter or underscore, remaining characters letters, digits
or underscores.  (`Char.isAlpha`/`Char.isDigit` are the ASCII classes.) -/
def RE_TOKEN_ID_matches (s : String) : Bool :=
  match s.data with
  | [] => false
  | c :: cs => (c.isAlpha || c = '_') && cs.all (fun d => d.isAlpha || d.isDigit || d = '_')

/-- `type_name::<StorageT>()` for the default `StorageT = u32`. -/
def storage_t_name : String := "u32"

/-- `lexerdef_name` for the only `LexerKind` (builder.rs lines 216-221). -/
def lexerdef_name : String := "LRNonStreamingLexerDef"

/-- `lexerdef_type` for the only `LexerKind` (builder.rs lines 216-221). -/
def lexerdef_type : String := lexerdef_name ++ "<" ++ storage_t_name ++ ">"

/-- Models Rust Debug formatting of one character inside a `Some(..)` rule
name, builder.rs line 241: backslash and quote are escaped, as are the
control characters used in practice; other characters stand for
themselves.  (Rust additionally unicode-escapes other control characters;
no claim depends on those.) -/
def rust_debug_char (c : Char) : List Char :=
  if c = '\\' then ['\\', '\\']
  else if c = '"' then ['\\', '"']
  else if c = '\n' then ['\\', 'n']
  else if c = '\t' then ['\\', 't']
  else if c = '\r' then ['\\', 'r']
  else [c]

/-- Rust Debug formatting of a string: the escaped text between double
quotes. -/
def rust_debug_str (s : String) : String :=
  "\"" ++ String.mk (s.data.flatMap rust_debug_char) ++ "\""

/-- One emitted token-id constant, builder.rs lines 267-272:
`#[allow(dead_code)]\npub const T_<UPPER>: <type> = <id>;\n`. -/
def const_line (n : String) (id : Nat) : String :=
  "#[allow(dead_code)]\npub const T_" ++ ascii_upper n ++ ": " ++ storage_t_name
    ++ " = " ++ toString id ++ ";\n"

/-- The token-id constant section, builder.rs lines 264-275: the loop over
the `rule_ids_map` appends a constant for every entry whose name matches
`RE_TOKEN_ID`, in the map's iteration order (the list order here), and
nothing for any other entry. -/
def gen_token_consts (rim : List (String × Nat)) : String :=
  String.join (rim.map (fun p => if RE_TOKEN_ID_matches p.1 then const_line p.1 p.2 else ""))

/-- The emitted constant lines, one list element per map entry that matches
`RE_TOKEN_ID`; `gen_token_consts` is their concatenation. -/
def token_consts (rim : List (String × Nat)) : List String :=
  rim.filterMap (fun p => if RE_TOKEN_ID_matches p.1 then some (const_line p.1 p.2) else none)

/-- One emitted rule, builder.rs lines 235-251:
`\nRule::new(<tok_id>, <name>, "<escaped re_str>".to_string()).unwrap(),`. -/
def gen_rule (r : LexRule) : String :=
  "\nRule::new("
    ++ (match r.tok_id with
        | some t => "Some(" ++ toString t ++ ")"
        | none => "None")
    ++ ", "
    ++ (match r.name with
        | some n => "Some(" ++ rust_debug_str n ++ ".to_string())"
        | none => "None")
    ++ ", \"" ++ escape_re r.re_str ++ "\".to_string()).unwrap(),"

/-- The rules section of the output: the loop of builder.rs lines 235-251 in
rule order. -/
def gen_rules (rules : List LexRule) : String :=
  String.join (rules.map gen_rule)

/-- The module header, builder.rs lines 223-232 (braces written with their
character codes). -/
def outs_header (mod_name : String) : String :=
  "mod " ++ mod_name ++ " \x7b\nuse lrlex::\x7bLexerDef, LRNonStreamingLexerDef, Rule\x7d;\n\n#[allow(dead_code)]\npub fn lexerdef() -> "
    ++ lexerdef_type ++ " \x7b\n    let rules = vec!["

/-- The footer after the rules, builder.rs lines 254-261. -/
def outs_footer : String :=
  "\n];\n    " ++ lexerdef_name ++ "::from_rules(rules)\n\x7d\n"

/-- Everything of the output string except the token-id constants and the
closing brace; this part never reads the `rule_ids_map`. -/
def outs_sans_consts (mod_name : String) (rules : List LexRule) : String :=
  outs_header mod_name ++ gen_rules rules ++ outs_footer

/-- The complete output string `outs` built by `process_file`
(builder.rs lines 212-278): header, rules, footer, token-id constants (when
a map was supplied), closing brace. -/
def build_outs (mod_name : String) (rules : List LexRule) (rim : Option (List (String × Nat))) : String :=
  outs_sans_consts mod_name rules
    ++ (match rim with
        | some m => gen_token_consts m
        | none => "")
    ++ "\x7d"

/-- The only `LexerKind` (builder.rs lines 29-31). -/
inductive LexerKind where
  | LRNonStreamingLexer
deriving DecidableEq

/-- The `LexerBuilder` configuration (builder.rs lines 35-41).  Field names
follow the source, except that the source spells the last two diagnostics
with "parser" where this file says "grammar" (the same side of the
reconciliation: lexer entries not used by the grammar). -/
structure LexerBuilder where
  lexerkind : LexerKind
  mod_name : Option String
  rule_ids_map : Option (List (String × Nat))
  allow_missing_terms_in_lexer : Bool
  allow_missing_tokens_in_grammar : Bool
deriving DecidableEq

/-- `LexerBuilder::new` (builder.rs lines 63-71): no module name, no rule-ids
map, `allow_missing_terms_in_lexer = false`,
`allow_missing_tokens_in_grammar = true`. -/
def LexerBuilder.new : LexerBuilder :=
  { lexerkind := LexerKind.LRNonStreamingLexer
    mod_name := none
    rule_ids_map := none
    allow_missing_terms_in_lexer := false
    allow_missing_tokens_in_grammar := true }

/-- Modelled from the spec: the Rule-ID Reconciler (`LexerDef::set_rule_ids`,
spec §4.4); its source file (`lrlex`'s `lexer.rs`) is not part of this
repository slice.  For every lexer rule with a name present in the map, the
map's id is assigned to the rule; `missing_from_lexer` is the set of map
keys with no matching named rule; `missing_from_grammar` is the set of named
rules whose name has no map entry; anonymous rules are exempt from both
sides.  Per spec §3 and §8, when a map is supplied both sets are present
(`some`, possibly empty). -/
def set_rule_ids (rules : List LexRule) (rim : List (String × Nat)) :
    List LexRule × Option (List String) × Option (List String) :=
  let rule_names := rules.filterMap (fun r => r.name)
  let rules' := rules.map (fun r =>
    match r.name with
    | some n =>
      match List.lookup n rim with
      | some i => { r with tok_id := some i }
      | none => r
    | none => r)
  let mfl := (rim.map (fun p => p.1)).filter (fun k => !(rule_names.contains k))
  let mfp := rule_names.filter (fun n => (List.lookup n rim).isNone)
  (rules', some mfl, some mfp)

/-- The reconciliation step of `process_file` (builder.rs lines 155-170):
with a map, call `set_rule_ids`; with none, rules pass through unchanged and
both diagnostic sets are `none`. -/
def reconcile_of (cfg : LexerBuilder) (lexRules : List LexRule) :
    List LexRule × Option (List String) × Option (List String) :=
  match cfg.rule_ids_map with
  | some rim => set_rule_ids lexRules rim
  | none => (lexRules, none, none)

/-- The module-name resolution of builder.rs lines 193-210: an explicitly
set name wins; otherwise the input path's leaf with every extension
stripped (`inpStem`, the result of the `file_stem` loop of lines 200-207)
suffixed with `_l`. -/
def resolved_mod_name (cfg : LexerBuilder) (inpStem : String) : String :=
  match cfg.mod_name with
  | some s => s
  | none => inpStem ++ "_l"

/-- The candidate output text `outs` that `process_file` builds for a given
configuration, lexer rules and input stem. -/
def candidate_outs (cfg : LexerBuilder) (lexRules : List LexRule) (inpStem : String) : String :=
  build_outs (resolved_mod_name cfg inpStem) (reconcile_of cfg lexRules).1 cfg.rule_ids_map

/-- The header printed before the missing-from-lexer names
(builder.rs line 174). -/
def hdr_missing_terms : String :=
  "Error: the following tokens are used in the grammar but are not defined in the lexer:"

/-- The header printed before the missing-from-parser names
(builder.rs line 184). -/
def hdr_missing_tokens : String :=
  "Error: the following tokens are defined in the lexer but not used in the grammar:"

/-- The observable outcome of `process_file`: `abort` models the
`eprintln` listing followed by `fs::remove_file(&outp)` and `panic!()`
(builder.rs lines 172-191) — it carries the printed header, the printed
names and the destination file's content after the removal; `ok` carries the
returned diagnostic pair, the destination file's final content, and whether
`File::create` + `write_all` ran. -/
inductive ProcessResult where
  | abort (header : String) (printed : List String) (dest : Option String)
  | ok (missing_from_lexer missing_from_grammar : Option (List String))
      (dest : Option String) (wrote : Bool)
deriving DecidableEq

/-- `LexerBuilder::process_file` (builder.rs lines 141-291).  The input file
has already been read and parsed into `lexRules`; `inpStem` is the input
path's extension-stripped leaf (see `resolved_mod_name`); `dest` is the
destination file's current content (`none` when the file does not exist).
Reconciliation runs first; then the two fatal checks, each of which fires
on a *present* diagnostic set when its `allow_*` flag is false, printing
every name, removing the destination file and panicking; then the output
text is built and written — unless the destination already holds exactly
that text, in which case the write is skipped (lines 280-287). -/
def process_file (cfg : LexerBuilder) (lexRules : List LexRule) (inpStem : String)
    (dest : Option String) : ProcessResult :=
  let r := reconcile_of cfg lexRules
  let mfl := r.2.1
  let mfp := r.2.2
  if !cfg.allow_missing_terms_in_lexer && mfl.isSome then
    ProcessResult.abort hdr_missing_terms (mfl.getD []) none
  else if !cfg.allow_missing_tokens_in_grammar && mfp.isSome then
    ProcessResult.abort hdr_missing_tokens (mfp.getD []) none
  else
    let outs := candidate_outs cfg lexRules inpStem
    match dest with
    | some curs =>
      if curs = outs then ProcessResult.ok mfl mfp dest false
      else ProcessResult.ok mfl mfp (some outs) true
    | none => ProcessResult.ok mfl mfp (some outs) true

/-! ### Helper lemmas for Part I -/

theorem string_join_append (l1 l2 : List String) :
    String.join (l1 ++ l2) = String.join l1 ++ String.join l2 := by
  apply String.ext
  simp [String.data_join, String.data_append]

theorem replace_char_append (c : Char) (rep : List Char) (l1 l2 : List Char) :
    replace_char c rep (l1 ++ l2) = replace_char c rep l1 ++ replace_char c rep l2 := by
  induction l1 with
  | nil => rfl
  | cons d t ih => simp [replace_char, ih]

theorem unescape_chars_cons (c : Char) (t : List Char) (h : ¬c = '\\') :
    unescape_chars (c :: t) = c :: unescape_chars t := by
  cases t with
  | nil => rfl
  | cons e r => simp [unescape_chars, h]

theorem unescape_escape_chars (cs : List Char) :
    unescape_chars (replace_char '"' ['\\', '"'] (replace_char '\\' ['\\', '\\'] cs)) = cs := by
  induction cs with
  | nil => rfl
  | cons c rest ih =>
    by_cases h1 : c = '\\'
    · subst h1
      simp only [replace_char, if_pos rfl, replace_char_append]
      norm_num [replace_char, unescape_chars]
      exact ih
    · by_cases h2 : c = '"'
      · subst h2
        simp only [replace_char, if_neg h1, if_pos rfl, List.singleton_append,
          replace_char_append]
        norm_num [replace_char, unescape_chars]
        exact ih
      · simp only [replace_char, if_neg h1, if_neg h2, List.singleton_append]
        rw [unescape_chars_cons c _ h1, ih]

/-! ### Claim theorems over Part I -/

/-- C5: for every lexer-rule pattern string, including ones containing
backslash and double-quote characters, the escaping applied when embedding
the pattern into the generated string literal round-trips: unescaping the
emitted literal yields the original pattern unchanged. -/
theorem C5_escape_roundtrip (s : String) : unescape_lit (escape_re s) = s := by
  cases s with
  | mk data => simp [escape_re, unescape_lit, unescape_escape_chars]

/-- Witness for C5 at a pattern containing a backslash and a double quote. -/
theorem C5_escape_roundtrip_witness : unescape_lit (escape_re "a\\\"b") = "a\\\"b" :=
  C5_escape_roundtrip "a\\\"b"

/-- C6: an entry `(n, id)` of the id map gives rise to an emitted constant
`T_<ascii-upper n> = id` exactly when `n` matches `RE_TOKEN_ID`; a
non-matching entry is silently skipped — deleting it from the map leaves the
emitted constant section unchanged (and emission is total: there is no error
path). -/
theorem C6_const_emission (rim : List (String × Nat)) (n : String) (id : Nat)
    (hmem : (n, id) ∈ rim) :
    (RE_TOKEN_ID_matches n = true → const_line n id ∈ token_consts rim)
  ∧ (RE_TOKEN_ID_matches n = false →
      ∀ l1 l2, rim = l1 ++ (n, id) :: l2 →
        gen_token_consts rim = gen_token_consts (l1 ++ l2)) := by
  constructor
  · intro hm
    exact List.mem_filterMap.mpr ⟨(n, id), hmem, by simp [hm]⟩
  · intro hm l1 l2 hsplit
    subst hsplit
    simp only [gen_token_consts, List.map_append, List.map_cons, hm, Bool.false_eq_true,
      if_false, string_join_append]
    rw [show String.join ("" :: List.map (fun p => if RE_TOKEN_ID_matches p.1 then const_line p.1 p.2 else "") l2)
        = String.join (List.map (fun p => if RE_TOKEN_ID_matches p.1 then const_line p.1 p.2 else "") l2) by
      simp [String.join]]

/-- Witness for C6: in the map `[("a", 1), ("b!", 2)]` the matching name
`"a"` has its constant line emitted. -/
theorem C6_const_emission_witness :
    const_line "a" 1 ∈ token_consts [("a", 1), ("b!", 2)] :=
  (C6_const_emission [("a", 1), ("b!", 2)] "a" 1 (by decide)).1 (by decide)

set_option maxRecDepth 8000 in
/-- C2 counterexample: two id maps with identical content (a permutation of
the same entries, keys distinct) but different iteration orders produce
different module text — the emitted `T_*` constants appear in iteration
order, so the output is not independent of unordered-map iteration order. -/
theorem C2_determinism_counterexample :
    (List.Perm [(("A" : String), (0 : Nat)), ("Bb", 1)] [("Bb", 1), ("A", 0)]
      ∧ (List.map Prod.fst [(("A" : String), (0 : Nat)), ("Bb", 1)]).Nodup)
  ∧ build_outs "m" [] (some [("A", 0), ("Bb", 1)])
      ≠ build_outs "m" [] (some [("Bb", 1), ("A", 0)]) := by
  refine ⟨⟨List.Perm.swap _ _ _, by decide⟩, by decide⟩

/-- C2 amended: the generator is a pure function of the rule list and the id
map's entry *sequence* (hence byte-identical output across runs for an
identical sequence), and permuting the id-map entries only permutes the
emitted constant lines: everything outside the token-constants section of
the module text is independent of the map's order. -/
theorem C2_amended_consts_perm (mod_name : String) (rules : List LexRule)
    (m1 m2 : List (String × Nat)) (h : List.Perm m1 m2) :
    List.Perm (token_consts m1) (token_consts m2)
  ∧ build_outs mod_name rules (some m1)
      = outs_sans_consts mod_name rules ++ gen_token_consts m1 ++ "\x7d" :=
  ⟨h.filterMap _, rfl⟩

/-- Witness for the amended C2 at a concrete two-entry permutation. -/
theorem C2_amended_consts_perm_witness :
    List.Perm (token_consts [("A", 0), ("Bb", 1)]) (token_consts [("Bb", 1), ("A", 0)])
  ∧ build_outs "m" [] (some [("A", 0), ("Bb", 1)])
      = outs_sans_consts "m" [] ++ gen_token_consts [("A", 0), ("Bb", 1)] ++ "\x7d" :=
  C2_amended_consts_perm "m" [] _ _ (List.Perm.swap _ _ _)

/-- C7: with no id map supplied, the reconciliation step of `process_file`
leaves every rule unchanged and returns `none` for both diagnostic sets,
which is a different value from `some` of the empty set. -/
theorem C7_reconcile_none (cfg : LexerBuilder) (lexRules : List LexRule)
    (h : cfg.rule_ids_map = none) :
    reconcile_of cfg lexRules = (lexRules, none, none)
  ∧ (none : Option (List String)) ≠ some [] := by
  refine ⟨?_, by simp⟩
  simp [reconcile_of, h]

/-- Witness for C7 at the default builder configuration and one rule. -/
theorem C7_reconcile_none_witness :
    reconcile_of LexerBuilder.new [⟨none, some "a", "p"⟩]
      = ([⟨none, some "a", "p"⟩], none, none)
  ∧ (none : Option (List String)) ≠ some [] :=
  C7_reconcile_none LexerBuilder.new _ rfl

/-- C3: with the default configuration (`LexerBuilder::new`, which treats
`missing_from_lexer` as fatal and tolerates `missing_from_grammar`), whenever
reconciliation reports a nonempty set of tokens missing from the lexer,
`process_file` aborts: it prints every offending name under the
missing-from-lexer header, removes the destination artifact (final
destination content is `none`), and performs no write of new output. -/
theorem C3_fatal_missing_from_lexer (rim : List (String × Nat)) (lexRules : List LexRule)
    (mod_nm : Option String) (inpStem : String) (dest : Option String) (s : List String)
    (hmfl : (set_rule_ids lexRules rim).2.1 = some s) (_hne : s ≠ []) :
    process_file { LexerBuilder.new with mod_name := mod_nm, rule_ids_map := some rim }
        lexRules inpStem dest
      = ProcessResult.abort hdr_missing_terms s none := by
  simp [process_file, reconcile_of, LexerBuilder.new, hmfl]

/-- Witness for C3: grammar token `"x"` absent from an empty lexer; the
previously generated artifact `"old"` is removed and the build aborts. -/
theorem C3_fatal_missing_from_lexer_witness :
    process_file { LexerBuilder.new with mod_name := some "m", rule_ids_map := some [("x", 5)] }
        [] "stem" (some "old")
      = ProcessResult.abort hdr_missing_terms ["x"] none :=
  C3_fatal_missing_from_lexer [("x", 5)] [] (some "m") "stem" (some "old") ["x"]
    (by decide) (by decide)

/-- C9: the fatal check tests only presence of the diagnostic set, not its
non-emptiness: under the default `allow_missing_terms_in_lexer = false`,
*any* `some s` value of `missing_from_lexer` — including the empty set that
a fully consistent reconciliation yields — makes `process_file` remove the
destination file and abort. -/
theorem C9_some_check_not_nonempty (rim : List (String × Nat)) (lexRules : List LexRule)
    (mod_nm : Option String) (inpStem : String) (dest : Option String) (s : List String)
    (hmfl : (set_rule_ids lexRules rim).2.1 = some s) :
    process_file { LexerBuilder.new with mod_name := mod_nm, rule_ids_map := some rim }
        lexRules inpStem dest
      = ProcessResult.abort hdr_missing_terms s none := by
  simp [process_file, reconcile_of, LexerBuilder.new, hmfl]

/-- Witness for C9 with a fully consistent reconciliation: the lexer rule
named `"a"` exactly matches the map `[("a", 1)]`, so `missing_from_lexer`
is `some []` — and `process_file` still removes the artifact and aborts,
printing no names. -/
theorem C9_some_check_not_nonempty_witness :
    process_file { LexerBuilder.new with mod_name := some "m", rule_ids_map := some [("a", 1)] }
        [⟨none, some "a", "p"⟩] "stem" (some "old")
      = ProcessResult.abort hdr_missing_terms [] none :=
  C9_some_check_not_nonempty [("a", 1)] [⟨none, some "a", "p"⟩] (some "m") "stem"
    (some "old") [] (by decide)

/-- C4: when the destination file already holds exactly the candidate output
text and neither fatal check fires, `process_file` performs zero filesystem
writes (the destination is untouched and no create/write runs) and still
returns the reconciliation diagnostic sets. -/
theorem C4_skip_identical_write (cfg : LexerBuilder) (lexRules : List LexRule) (inpStem : String)
    (h1 : cfg.allow_missing_terms_in_lexer = true ∨ (reconcile_of cfg lexRules).2.1 = none)
    (h2 : cfg.allow_missing_tokens_in_grammar = true ∨ (reconcile_of cfg lexRules).2.2 = none) :
    process_file cfg lexRules inpStem (some (candidate_outs cfg lexRules inpStem))
      = ProcessResult.ok (reconcile_of cfg lexRules).2.1 (reconcile_of cfg lexRules).2.2
          (some (candidate_outs cfg lexRules inpStem)) false := by
  unfold process_file
  rcases h1 with h1 | h1 <;> rcases h2 with h2 | h2 <;> simp [h1, h2]

/-- Witness for C4 at the default configuration with no id map: the
identical destination is left in place, nothing is written, and the
`(none, none)` diagnostics are returned. -/
theorem C4_skip_identical_write_witness :
    process_file LexerBuilder.new [] "x" (some (candidate_outs LexerBuilder.new [] "x"))
      = ProcessResult.ok none none (some (candidate_outs LexerBuilder.new [] "x")) false :=
  C4_skip_identical_write LexerBuilder.new [] "x" (Or.inr rfl) (Or.inr rfl)

/-! ## Part II: the Yacc grammar-text parser (`parse_yacc`)

The parser's source file is not part of this repository slice; everything
below is modelled from the spec (§4.1, §6) with behaviour on the repository's
own tests (`src/tests/test_yaccparser.rs`) as the authority wherever the two
disagree.  Parsing functions take a fuel argument so that they are
structurally recursive and evaluate inside the kernel; `parse_yacc` supplies
`length + 1` fuel, which is ample because every loop iteration consumes at
least one character of input. -/

namespace Yacc

/-- A grammar symbol: terminal or nonterminal, compared by tag and name. -/
inductive Symbol where
  | Terminal : String → Symbol
  | Nonterminal : String → Symbol
deriving DecidableEq

/-- The grammar AST: optional start symbol, token set (modelled as a
duplicate-free insertion-ordered list) and the rules, a mapping from rule
name to the rule's alternatives (an association list keyed by name, order
of first appearance). -/
structure GrammarAST where
  start : Option String
  tokens : List String
  rules : List (String × List (List Symbol))
deriving DecidableEq

/-- The AST every parse starts from. -/
def GrammarAST.empty : GrammarAST := ⟨none, [], []⟩

/-- Token-set insertion (auto-discovery and `%token` both land here):
set semantics, first insertion wins the position. -/
def GrammarAST.add_token (ast : GrammarAST) (t : String) : GrammarAST :=
  if t ∈ ast.tokens then ast else { ast with tokens := ast.tokens ++ [t] }

/-- `has_token` of the AST. -/
def GrammarAST.has_token (ast : GrammarAST) (t : String) : Prop :=
  t ∈ ast.tokens

/-- Append one alternative to the rule named `name`, creating the rule if
it does not exist yet; an existing rule keeps its position and its earlier
alternatives, so repeated declarations of one name merge in source order. -/
def add_alt_list (rules : List (String × List (List Symbol))) (name : String)
    (alt : List Symbol) : List (String × List (List Symbol)) :=
  match rules with
  | [] => [(name, [alt])]
  | (n, alts) :: rest =>
    if n = name then (n, alts ++ [alt]) :: rest
    else (n, alts) :: add_alt_list rest name alt

/-- AST-level wrapper of `add_alt_list`. -/
def GrammarAST.add_alternative (ast : GrammarAST) (name : String) (alt : List Symbol) :
    GrammarAST :=
  { ast with rules := add_alt_list ast.rules name alt }

/-- Rule lookup by name. -/
def GrammarAST.get_rule (ast : GrammarAST) (name : String) : Option (List (List Symbol)) :=
  List.lookup name ast.rules

/-- The distinct error kinds of the parser's taxonomy (spec §4.1); the real
error also carries a position, which no claim observes. -/
inductive YaccErrorKind where
  | IncompleteRule
  | MissingColon
  | PrematureEnd
  | ProgramsNotSupported
  | UnknownDeclaration
deriving DecidableEq

/-- Whitespace characters skipped between tokens. -/
def isWsChar (c : Char) : Bool := c = ' ' || c = '\t' || c = '\n' || c = '\r'

/-- Intraline whitespace, used inside one declaration line. -/
def isSpaceTab (c : Char) : Bool := c = ' ' || c = '\t'

/-- First character of an identifier. -/
def isIdentStart (c : Char) : Bool := c.isAlpha || c = '_'

/-- Subsequent character of an identifier. -/
def isIdentChar (c : Char) : Bool := c.isAlpha || c.isDigit || c = '_'

/-- Skip leading whitespace. -/
def dropWs (cs : List Char) : List Char := cs.dropWhile isWsChar

/-- Skip leading intraline whitespace. -/
def dropSpaces (cs : List Char) : List Char := cs.dropWhile isSpaceTab

/-- Take the longest leading identifier: the name and the remainder. -/
def takeName (cs : List Char) : List Char × List Char :=
  (cs.takeWhile isIdentChar, cs.dropWhile isIdentChar)

/-- `lookahead_is`: when `pat` is a leading pattern of `cs`, the remainder
after it; otherwise `none`. -/
def lookahead_is (pat cs : List Char) : Option (List Char) :=
  match pat, cs with
  | [], rest => some rest
  | _ :: _, [] => none
  | p :: ps, c :: cs' => if c = p then lookahead_is ps cs' else none

/-- The `%%` section separator. -/
def sepMark : List Char := ['%', '%']

/-- The `%start` keyword. -/
def startKw : List Char := ['%', 's', 't', 'a', 'r', 't']

/-- The `%token` keyword. -/
def tokenKw : List Char := ['%', 't', 'o', 'k', 'e', 'n']

/-- Scan a quoted literal's content after its opening quote `q`: the content
up to the matching close quote, and the remainder after it; `none` when the
input ends first. -/
def scan_quoted (q : Char) : List Char → Option (List Char × List Char)
  | [] => none
  | c :: rest =>
    if c = q then some ([], rest)
    else
      match scan_quoted q rest with
      | some (content, rem) => some (c :: content, rem)
      | none => none

/-- Modelled from the spec (§4.1): the body of one rule after its `:` —
alternatives separated by `|`, terminated by `;`.  A quoted literal
(single or double quotes) is a terminal and is auto-added to the token set;
a bare identifier is a nonterminal reference; input ending before the `;`
is `IncompleteRule`.  `cur` is the alternative being accumulated. -/
def parse_alts (fuel : Nat) (ast : GrammarAST) (rname : String) (cur : List Symbol)
    (cs : List Char) : Except YaccErrorKind (GrammarAST × List Char) :=
  match fuel with
  | 0 => Except.error YaccErrorKind.IncompleteRule
  | fuel + 1 =>
    match dropWs cs with
    | [] => Except.error YaccErrorKind.IncompleteRule
    | c :: rest =>
      if c = ';' then Except.ok (ast.add_alternative rname cur, rest)
      else if c = '|' then parse_alts fuel (ast.add_alternative rname cur) rname [] rest
      else if c = '\'' || c = '"' then
        match scan_quoted c rest with
        | some (content, rem) =>
          let t := String.mk content
          parse_alts fuel (ast.add_token t) rname (cur ++ [Symbol.Terminal t]) rem
        | none => Except.error YaccErrorKind.IncompleteRule
      else if isIdentStart c then
        let (n, rest') := takeName (c :: rest)
        parse_alts fuel ast rname (cur ++ [Symbol.Nonterminal (String.mk n)]) rest'
      else Except.error YaccErrorKind.IncompleteRule

/-- Modelled from the spec (§4.1): one rule `<name> ':' <alt> ('|' <alt>)* ';'`.
A missing name or a name not followed by `:` is `MissingColon`. -/
def parse_rule (fuel : Nat) (ast : GrammarAST) (cs : List Char) :
    Except YaccErrorKind (GrammarAST × List Char) :=
  if (takeName (dropWs cs)).1 = [] then Except.error YaccErrorKind.MissingColon
  else
    match dropWs (takeName (dropWs cs)).2 with
    | ':' :: rest => parse_alts fuel ast (String.mk (takeName (dropWs cs)).1) [] rest
    | _ => Except.error YaccErrorKind.MissingColon

/-- Modelled from the spec (§4.1): the rules section — rules until the end
of input or a second `%%`, which is left in place for the program-section
phase. -/
def parse_rules (fuel : Nat) (ast : GrammarAST) (cs : List Char) :
    Except YaccErrorKind (GrammarAST × List Char) :=
  match fuel with
  | 0 => Except.error YaccErrorKind.IncompleteRule
  | fuel + 1 =>
    match dropWs cs with
    | [] => Except.ok (ast, [])
    | '%' :: '%' :: rest => Except.ok (ast, '%' :: '%' :: rest)
    | cs' =>
      match parse_rule fuel ast cs' with
      | Except.error e => Except.error e
      | Except.ok (ast', rest) => parse_rules fuel ast' rest

/-- Modelled from the spec (§4.1): the `%token` name list — one or more
identifiers on one line, each added to the token set. -/
def parse_token_names (fuel : Nat) (ast : GrammarAST) (cs : List Char) :
    GrammarAST × List Char :=
  match fuel with
  | 0 => (ast, cs)
  | fuel + 1 =>
    match dropSpaces cs with
    | [] => (ast, [])
    | c :: rest =>
      if isIdentStart c then
        let (n, rest') := takeName (c :: rest)
        parse_token_names fuel (ast.add_token (String.mk n)) rest'
      else (ast, c :: rest)

/-- Modelled from the spec (§4.1): the declarations section up to and
including the mandatory `%%` separator.  `%start <ident>` records the start
symbol, `%token <ident>+` records declared tokens, any other `%`-line is
`UnknownDeclaration`; input ending before the separator (or a declaration
missing its identifiers) is `PrematureEnd`.  (Stray non-`%` text before the
separator is not covered by the spec or the tests; it is treated as an
unknown declaration.) -/
def parse_decls (fuel : Nat) (ast : GrammarAST) (cs : List Char) :
    Except YaccErrorKind (GrammarAST × List Char) :=
  match fuel with
  | 0 => Except.error YaccErrorKind.PrematureEnd
  | fuel + 1 =>
    match lookahead_is sepMark (dropWs cs) with
    | some rest => Except.ok (ast, rest)
    | none =>
      match dropWs cs with
      | [] => Except.error YaccErrorKind.PrematureEnd
      | c :: _ =>
        if !(c = '%') then Except.error YaccErrorKind.UnknownDeclaration
        else
          match lookahead_is startKw (dropWs cs) with
          | some rest =>
            if (takeName (dropSpaces rest)).1 = [] then
              Except.error YaccErrorKind.PrematureEnd
            else
              parse_decls fuel
                { ast with start := some (String.mk (takeName (dropSpaces rest)).1) }
                (takeName (dropSpaces rest)).2
          | none =>
            match lookahead_is tokenKw (dropWs cs) with
            | some rest =>
              match dropSpaces rest with
              | c2 :: r2 =>
                if isIdentStart c2 then
                  parse_decls fuel (parse_token_names fuel ast (c2 :: r2)).1
                    (parse_token_names fuel ast (c2 :: r2)).2
                else Except.error YaccErrorKind.PrematureEnd
              | [] => Except.error YaccErrorKind.PrematureEnd
            | none => Except.error YaccErrorKind.UnknownDeclaration

/-- Modelled from the spec (§4.1) and the repository's tests: the trailing
program section.  The spec's words (§4.1, §6) call any second `%%` a hard
`ProgramsNotSupported` error, but the repository's own test
`test_empty_program` (src/tests/test_yaccparser.rs line 104) accepts
`"%%\nA : 'a';\n%%"`; so a second `%%` followed only by whitespace is
accepted, and one followed by anything else is `ProgramsNotSupported`. -/
def parse_programs (cs : List Char) : Except YaccErrorKind Unit :=
  match lookahead_is sepMark cs with
  | some rest =>
    if dropWs rest = [] then Except.ok ()
    else Except.error YaccErrorKind.ProgramsNotSupported
  | none => Except.ok ()

/-- Modelled from the spec (§4.1): `parse_yacc` — declarations, separator,
rules, optional trailing program section. -/
def parse_yacc (src : String) : Except YaccErrorKind GrammarAST :=
  match parse_decls (src.data.length + 1) GrammarAST.empty src.data with
  | Except.error e => Except.error e
  | Except.ok (ast, cs1) =>
    match parse_rules (src.data.length + 1) ast cs1 with
    | Except.error e => Except.error e
    | Except.ok (ast2, cs2) =>
      match parse_programs cs2 with
      | Except.error e => Except.error e
      | Except.ok _ => Except.ok ast2


/-! ### Helper lemmas for Part II -/

/-- Every terminal of the alternative is in the token list. -/
def alt_covered (tokens : List String) (alt : List Symbol) : Prop :=
  ∀ t : String, Symbol.Terminal t ∈ alt → t ∈ tokens

/-- Every terminal referenced in any rule alternative of the AST is in its
token set — the auto-discovery invariant. -/
def terminals_covered (ast : GrammarAST) : Prop :=
  ∀ p ∈ ast.rules, ∀ alt ∈ p.2, alt_covered ast.tokens alt

theorem add_token_rules (ast : GrammarAST) (t : String) :
    (ast.add_token t).rules = ast.rules := by
  unfold GrammarAST.add_token
  split <;> rfl

theorem add_token_tokens_sub (ast : GrammarAST) (t : String) :
    ast.tokens ⊆ (ast.add_token t).tokens := by
  unfold GrammarAST.add_token
  split
  · exact fun x hx => hx
  · exact fun x hx => List.mem_append_left _ hx

theorem mem_add_token (ast : GrammarAST) (t : String) :
    t ∈ (ast.add_token t).tokens := by
  unfold GrammarAST.add_token
  split
  · assumption
  · exact List.mem_append_right _ (List.mem_singleton.mpr rfl)

theorem add_alternative_tokens (ast : GrammarAST) (n : String) (alt : List Symbol) :
    (ast.add_alternative n alt).tokens = ast.tokens := rfl

theorem mem_add_alt_list (rs : List (String × List (List Symbol))) (name : String)
    (alt : List Symbol) (p : String × List (List Symbol))
    (hp : p ∈ add_alt_list rs name alt) (a : List Symbol) (ha : a ∈ p.2) :
    (∃ q ∈ rs, a ∈ q.2) ∨ a = alt := by
  induction rs with
  | nil =>
    simp [add_alt_list] at hp
    subst hp
    simp at ha
    exact Or.inr ha
  | cons hd rest ih =>
    obtain ⟨n0, alts0⟩ := hd
    simp only [add_alt_list] at hp
    by_cases hn : n0 = name
    · rw [if_pos hn] at hp
      rcases List.mem_cons.mp hp with h1 | h1
      · subst h1
        rcases List.mem_append.mp ha with h2 | h2
        · exact Or.inl ⟨(n0, alts0), List.mem_cons_self _ _, h2⟩
        · exact Or.inr (List.mem_singleton.mp h2)
      · exact Or.inl ⟨p, List.mem_cons_of_mem _ h1, ha⟩
    · rw [if_neg hn] at hp
      rcases List.mem_cons.mp hp with h1 | h1
      · subst h1
        exact Or.inl ⟨(n0, alts0), List.mem_cons_self _ _, ha⟩
      · rcases ih h1 with h2 | h2
        · obtain ⟨q, hq, hqa⟩ := h2
          exact Or.inl ⟨q, List.mem_cons_of_mem _ hq, hqa⟩
        · exact Or.inr h2

theorem terminals_covered_mono (ast ast' : GrammarAST)
    (h : terminals_covered ast) (hr : ast'.rules = ast.rules)
    (ht : ast.tokens ⊆ ast'.tokens) : terminals_covered ast' := by
  intro p hp alt halt t hta
  rw [hr] at hp
  exact ht (h p hp alt halt t hta)

theorem terminals_covered_add_alternative (ast : GrammarAST) (rname : String)
    (cur : List Symbol) (h : terminals_covered ast)
    (hc : alt_covered ast.tokens cur) :
    terminals_covered (ast.add_alternative rname cur) := by
  intro p hp alt halt t hta
  rcases mem_add_alt_list ast.rules rname cur p hp alt halt with h1 | h1
  · obtain ⟨q, hq, hqa⟩ := h1
    exact h q hq alt hqa t hta
  · subst h1
    exact hc t hta

theorem parse_alts_inv (fuel : Nat) (ast : GrammarAST) (rname : String)
    (cur : List Symbol) (cs : List Char) (ast' : GrammarAST) (rest : List Char)
    (h : parse_alts fuel ast rname cur cs = Except.ok (ast', rest))
    (hast : terminals_covered ast) (hcur : alt_covered ast.tokens cur) :
    terminals_covered ast' ∧ ast.tokens ⊆ ast'.tokens := by
  induction fuel generalizing ast cur cs ast' rest with
  | zero => simp [parse_alts] at h
  | succ fuel ih =>
    unfold parse_alts at h
    split at h
    · simp at h
    next c rest0 heq =>
      split at h
      · -- c = ';': the accumulated alternative is committed and parsing stops
        simp only [Except.ok.injEq, Prod.mk.injEq] at h
        obtain ⟨h2, _⟩ := h
        subst h2
        exact ⟨terminals_covered_add_alternative ast rname cur hast hcur,
          fun x hx => hx⟩
      split at h
      · -- c = '|': commit the alternative, start a new empty one
        have hres := ih (ast.add_alternative rname cur) [] rest0 ast' rest h
          (terminals_covered_add_alternative ast rname cur hast hcur)
          (fun t ht => absurd ht (List.not_mem_nil _))
        exact ⟨hres.1, hres.2⟩
      split at h
      · -- quoted terminal
        split at h
        next content rem hsq =>
          have hsub := add_token_tokens_sub ast (String.mk content)
          have hres := ih (ast.add_token (String.mk content)) _ rem ast' rest h
            (terminals_covered_mono ast (ast.add_token (String.mk content)) hast
              (add_token_rules ast (String.mk content)) hsub)
            (by
              intro u hu
              rcases List.mem_append.mp hu with h3 | h3
              · exact hsub (hcur u h3)
              · rw [List.mem_singleton] at h3
                injection h3 with h4
                rw [h4]
                exact mem_add_token ast (String.mk content))
          exact ⟨hres.1, fun x hx => hres.2 (hsub hx)⟩
        · simp at h
      split at h
      · -- bare identifier: a nonterminal reference
        have hres := ih ast _ _ ast' rest h hast
          (by
            intro u hu
            rcases List.mem_append.mp hu with h3 | h3
            · exact hcur u h3
            · rw [List.mem_singleton] at h3
              exact absurd h3 (by simp))
        exact hres
      · simp at h

theorem parse_rule_inv (fuel : Nat) (ast : GrammarAST) (cs : List Char)
    (ast' : GrammarAST) (rest : List Char)
    (h : parse_rule fuel ast cs = Except.ok (ast', rest))
    (hast : terminals_covered ast) :
    terminals_covered ast' ∧ ast.tokens ⊆ ast'.tokens := by
  unfold parse_rule at h
  split at h
  · simp at h
  · split at h
    next r heq =>
      exact parse_alts_inv fuel ast _ [] r ast' rest h hast
        (fun t ht => absurd ht (List.not_mem_nil _))
    · simp at h

theorem parse_rules_inv (fuel : Nat) (ast : GrammarAST) (cs : List Char)
    (ast' : GrammarAST) (rest : List Char)
    (h : parse_rules fuel ast cs = Except.ok (ast', rest))
    (hast : terminals_covered ast) :
    terminals_covered ast' ∧ ast.tokens ⊆ ast'.tokens := by
  induction fuel generalizing ast cs ast' rest with
  | zero => simp [parse_rules] at h
  | succ fuel ih =>
    unfold parse_rules at h
    split at h
    · simp only [Except.ok.injEq, Prod.mk.injEq] at h
      obtain ⟨h1, _⟩ := h
      subst h1
      exact ⟨hast, fun x hx => hx⟩
    · simp only [Except.ok.injEq, Prod.mk.injEq] at h
      obtain ⟨h1, _⟩ := h
      subst h1
      exact ⟨hast, fun x hx => hx⟩
    · split at h
      · simp at h
      next ast1 rest1 heq =>
        have h1 := parse_rule_inv fuel ast _ ast1 rest1 heq hast
        have h2 := ih ast1 rest1 ast' rest h h1.1
        exact ⟨h2.1, fun x hx => h2.2 (h1.2 hx)⟩

theorem parse_token_names_mono (fuel : Nat) (ast : GrammarAST) (cs : List Char) :
    (parse_token_names fuel ast cs).1.rules = ast.rules
  ∧ ast.tokens ⊆ (parse_token_names fuel ast cs).1.tokens := by
  induction fuel generalizing ast cs with
  | zero => exact ⟨rfl, fun x hx => hx⟩
  | succ fuel ih =>
    unfold parse_token_names
    split
    · exact ⟨rfl, fun x hx => hx⟩
    next c rest heq =>
      split
      · have h1 := ih (ast.add_token (String.mk (takeName (c :: rest)).1))
          (takeName (c :: rest)).2
        refine ⟨?_, ?_⟩
        · rw [h1.1, add_token_rules]
        · exact fun x hx => h1.2 (add_token_tokens_sub _ _ hx)
      · exact ⟨rfl, fun x hx => hx⟩

theorem parse_decls_inv (fuel : Nat) (ast : GrammarAST) (cs : List Char)
    (ast' : GrammarAST) (rest : List Char)
    (h : parse_decls fuel ast cs = Except.ok (ast', rest)) :
    ast'.rules = ast.rules ∧ ast.tokens ⊆ ast'.tokens := by
  induction fuel generalizing ast cs ast' rest with
  | zero => simp [parse_decls] at h
  | succ fuel ih =>
    unfold parse_decls at h
    split at h
    · simp only [Except.ok.injEq, Prod.mk.injEq] at h
      obtain ⟨h1, _⟩ := h
      subst h1
      exact ⟨rfl, fun x hx => hx⟩
    · split at h
      · simp at h
      · split at h
        · simp at h
        · split at h
          · split at h
            · simp at h
            · have h1 := ih _ _ ast' rest h
              exact ⟨h1.1, h1.2⟩
          · split at h
            · split at h
              next c2 r2 heq2 =>
                split at h
                · have hmono := parse_token_names_mono fuel ast (c2 :: r2)
                  have h1 := ih _ _ ast' rest h
                  exact ⟨h1.1.trans hmono.1, fun x hx => h1.2 (hmono.2 hx)⟩
                · simp at h
              · simp at h
            · simp at h

/-! ### Claim theorems over Part II -/

/-- C1 counterexample: the grammar text `"%%\nA : 'a';\n%%"` contains a
second `%%` separator after the rules section, yet `parse_yacc` succeeds
(the empty trailing program section is accepted, exactly as the repository's
own `test_empty_program` requires), contradicting the claim that it must be
rejected with `ProgramsNotSupported`. -/
theorem C1_empty_program_accepted :
    parse_yacc "%%\nA : 'a';\n%%"
      = Except.ok ⟨none, ["a"], [("A", [[Symbol.Terminal "a"]])]⟩ := rfl

/-- C1 amended: a second `%%` separator is rejected with
`ProgramsNotSupported` exactly when non-whitespace content follows it; a
second `%%` followed only by whitespace (an empty program section) is
accepted.  In particular `"%% %% x"` fails with `ProgramsNotSupported`
while `"%%\nA : 'a';\n%%"` parses successfully. -/
theorem C1_programs_not_supported (cs rest : List Char)
    (hsep : lookahead_is sepMark cs = some rest) (hne : dropWs rest ≠ []) :
    parse_programs cs = Except.error YaccErrorKind.ProgramsNotSupported
  ∧ parse_yacc "%% %% x" = Except.error YaccErrorKind.ProgramsNotSupported
  ∧ parse_yacc "%%\nA : 'a';\n%%"
      = Except.ok ⟨none, ["a"], [("A", [[Symbol.Terminal "a"]])]⟩ := by
  refine ⟨?_, rfl, rfl⟩
  unfold parse_programs
  rw [hsep]
  simp [hne]

/-- Witness for the amended C1: the program-section phase rejects a second
`%%` followed by `" x"`. -/
theorem C1_programs_not_supported_witness :
    parse_programs ['%', '%', ' ', 'x'] = Except.error YaccErrorKind.ProgramsNotSupported
  ∧ parse_yacc "%% %% x" = Except.error YaccErrorKind.ProgramsNotSupported
  ∧ parse_yacc "%%\nA : 'a';\n%%"
      = Except.ok ⟨none, ["a"], [("A", [[Symbol.Terminal "a"]])]⟩ :=
  C1_programs_not_supported ['%', '%', ' ', 'x'] [' ', 'x'] rfl (by decide)

/-- C8: for every grammar text accepted by `parse_yacc`, every terminal
symbol referenced in any rule alternative of the resulting AST appears in
its token set, whether or not it was declared with `%token`
(auto-discovery invariant). -/
theorem C8_auto_token_discovery (src : String) (ast : GrammarAST)
    (h : parse_yacc src = Except.ok ast) (p : String × List (List Symbol))
    (hp : p ∈ ast.rules) (alt : List Symbol) (halt : alt ∈ p.2) (t : String)
    (ht : Symbol.Terminal t ∈ alt) : t ∈ ast.tokens := by
  unfold parse_yacc at h
  split at h
  · simp at h
  next ast0 cs1 heqd =>
    split at h
    · simp at h
    next ast2 cs2 heqr =>
      split at h
      · simp at h
      · simp only [Except.ok.injEq] at h
        subst h
        have hd := parse_decls_inv _ _ _ _ _ heqd
        have hcov0 : terminals_covered ast0 := by
          intro q hq
          rw [hd.1] at hq
          exact absurd hq (List.not_mem_nil _)
        have hr := parse_rules_inv _ _ _ _ _ heqr hcov0
        exact hr.1 p hp alt halt t ht

/-- Witness for C8: in `"%%\nA : 'a';"` the quoted terminal `'a'` was never
declared with `%token`, yet `"a"` is in the token set of the parse
result. -/
theorem C8_auto_token_discovery_witness :
    "a" ∈ (GrammarAST.mk none ["a"] [("A", [[Symbol.Terminal "a"]])]).tokens :=
  C8_auto_token_discovery "%%\nA : 'a';" _ rfl ("A", [[Symbol.Terminal "a"]])
    (by decide) [Symbol.Terminal "a"] (by decide) "a" (by decide)

/-- C10: two separate rule declarations with the same name merge — the
concrete grammar of `test_rule_alternative_simple` parses to a single rule
`A` whose alternatives are those of both declarations in source order; and
in general, adding an alternative for an already-present rule name appends
it to that rule's alternative list and creates no new entry (the
pairwise-distinct-names invariant is kept by merging). -/
theorem C10_duplicate_rule_merging :
    (parse_yacc "%%\nA : 'a';\nA : 'b';"
      = Except.ok ⟨none, ["a", "b"],
          [("A", [[Symbol.Terminal "a"], [Symbol.Terminal "b"]])]⟩)
  ∧ ∀ (rs : List (String × List (List Symbol))) (name : String)
      (alt : List Symbol) (alts : List (List Symbol)),
      List.lookup name rs = some alts →
      List.lookup name (add_alt_list rs name alt) = some (alts ++ [alt])
      ∧ (add_alt_list rs name alt).map Prod.fst = rs.map Prod.fst := by
  refine ⟨rfl, ?_⟩
  intro rs name alt alts hl
  induction rs with
  | nil => simp at hl
  | cons hd rest ih =>
    obtain ⟨n0, alts0⟩ := hd
    simp only [add_alt_list]
    by_cases hn : n0 = name
    · subst hn
      rw [if_pos rfl]
      simp only [List.lookup, beq_self_eq_true, if_pos] at hl ⊢
      simp only [Option.some.injEq] at hl
      subst hl
      exact ⟨rfl, rfl⟩
    · rw [if_neg hn]
      have hne : (name == n0) = false := beq_eq_false_iff_ne.mpr (Ne.symm hn)
      simp only [List.lookup, hne] at hl ⊢
      have := ih hl
      exact ⟨this.1, by simp only [List.map_cons, this.2]⟩

/-- Witness for C10: appending the alternative `'b'` of a second
`A`-declaration to an AST already holding `A : 'a';`. -/
theorem C10_duplicate_rule_merging_witness :
    List.lookup "A" (add_alt_list [("A", [[Symbol.Terminal "a"]])] "A" [Symbol.Terminal "b"])
      = some ([[Symbol.Terminal "a"]] ++ [[Symbol.Terminal "b"]])
  ∧ (add_alt_list [("A", [[Symbol.Terminal "a"]])] "A" [Symbol.Terminal "b"]).map Prod.fst
      = [("A", [[Symbol.Terminal "a"]])].map Prod.fst :=
  C10_duplicate_rule_merging.2 _ _ _ _ rfl

end Yacc
